import Mathlib

/-!
# Verification of the fashion recommendation engine (`src/lib/core.ts`, `src/lib/utils.ts`)

Shallow embedding of the core module of the pinboard-fashion repository.
Strings are modelled as lists of Unicode code points (`List Nat`), so that the
character-level text normalization of `normalizeText` can be embedded faithfully.
JavaScript numbers are modelled as rationals (`ℚ`); JavaScript truthiness of a
number is `≠ 0` and of a string is `≠ ""`.
-/

/-- A string, as a list of Unicode code points. -/
abbrev Str := List Nat

/-! ## `lib/utils.ts`: `normalizeText` -/

/-- Whitespace characters matched by the regex class `\s` (ASCII fragment):
space 32, tab 9, LF 10, VT 11, FF 12, CR 13. -/
def isWsChar (c : Nat) : Bool :=
  c = 32 || c = 9 || c = 10 || c = 11 || c = 12 || c = 13

/-- Embeds `String.prototype.toLowerCase`, per character (ASCII fragment):
uppercase letters 65–90 map to 97–122. -/
def toLowerChar (c : Nat) : Nat :=
  if 65 ≤ c ∧ c ≤ 90 then c + 32 else c

/-- Embeds `.toLowerCase()` over a whole string. -/
def lowerStr (s : Str) : Str := s.map toLowerChar

/-- Embeds `.trim()`: remove whitespace from both ends. -/
def trimStr (s : Str) : Str :=
  ((s.dropWhile isWsChar).reverse.dropWhile isWsChar).reverse

/-- Characters kept by `.replace(/[^a-z0-9\s-]/g, '')`:
lowercase letters 97–122, digits 48–57, whitespace, hyphen 45. -/
def keepChar (c : Nat) : Bool :=
  (97 ≤ c && c ≤ 122) || (48 ≤ c && c ≤ 57) || isWsChar c || c = 45

/-- Embeds `.replace(/[^a-z0-9\s-]/g, '')`. -/
def stripStr (s : Str) : Str := s.filter keepChar

/-- Scanner for `.replace(/\s+/g, ' ')`: `prevWs` records whether we are inside
a whitespace run whose single replacement space has already been emitted. -/
def collapseWsAux : Bool → List Nat → List Nat
  | _, [] => []
  | prevWs, c :: rest =>
    if isWsChar c then
      if prevWs then collapseWsAux true rest
      else 32 :: collapseWsAux true rest
    else c :: collapseWsAux false rest

/-- Embeds `.replace(/\s+/g, ' ')`: each maximal run of whitespace becomes one space. -/
def collapseWs (s : Str) : Str := collapseWsAux false s

/-- Embeds `normalizeText` from `lib/utils.ts`:
`text.toLowerCase().trim().replace(/[^a-z0-9\s-]/g, '').replace(/\s+/g, ' ')`. -/
def normalizeText (s : Str) : Str :=
  collapseWs (stripStr (trimStr (lowerStr s)))

/-! ## Data model (`lib/core.ts` interfaces) -/

/-- The six fixed values of the `category` union type of `FashionItem`. -/
inductive Category where
  | tops | bottoms | dresses | outerwear | shoes | accessories
deriving DecidableEq, Repr

/-- The category as the string literal it is in TypeScript. -/
def categoryStr : Category → Str
  | .tops => [116, 111, 112, 115]
  | .bottoms => [98, 111, 116, 116, 111, 109, 115]
  | .dresses => [100, 114, 101, 115, 115, 101, 115]
  | .outerwear => [111, 117, 116, 101, 114, 119, 101, 97, 114]
  | .shoes => [115, 104, 111, 101, 115]
  | .accessories => [97, 99, 99, 101, 115, 115, 111, 114, 105, 101, 115]

/-- Embeds `interface FashionItem`. `price` and `brand` are optional fields. -/
structure FashionItem where
  id : Str
  title : Str
  description : Str
  imageUrl : Str
  category : Category
  colors : List Str
  style : List Str
  price : Option ℚ
  brand : Option Str
  tags : List Str
deriving DecidableEq

/-- Embeds `interface PinterestBoard`. -/
structure PinterestBoard where
  id : Str
  name : Str
  pins : List FashionItem
deriving DecidableEq

/-- Embeds `interface StyleProfile`. -/
structure StyleProfile where
  dominantColors : List Str
  preferredCategories : List Str
  styleKeywords : List Str
  priceRange : Option (ℚ × ℚ)
  favoredBrands : List Str
deriving DecidableEq

/-! ## Frequency map and top-N (`_getFrequencyMap`, `_getTopN`) -/

/-- Embeds `freq.set(k, (freq.get(k) || 0) + 1)` on an insertion-ordered association
list, as a JavaScript `Map` is. -/
def bumpKey (k : Str) : List (Str × Nat) → List (Str × Nat)
  | [] => [(k, 1)]
  | (k', v) :: rest =>
    if k' = k then (k', v + 1) :: rest else (k', v) :: bumpKey k rest

/-- Embeds `_getFrequencyMap`: count occurrences of `normalizeText item`, in
insertion order. -/
def getFrequencyMap (items : List Str) : List (Str × Nat) :=
  items.foldl (fun m i => bumpKey (normalizeText i) m) []

/-- Stable descending insertion by a rational key: the sorted order produced by
JavaScript's stable `Array.prototype.sort` with comparator `(a, b) => key b - key a`. -/
def insertDescBy {α : Type} (key : α → ℚ) (x : α) : List α → List α
  | [] => [x]
  | y :: ys =>
    if key x < key y then y :: insertDescBy key x ys else x :: y :: ys

/-- Stable sort, descending by `key`. -/
def sortDescBy {α : Type} (key : α → ℚ) (l : List α) : List α :=
  l.foldr (insertDescBy key) []

/-- Embeds `_getTopN`: sort entries by descending count, keep the first `n`, drop counts. -/
def getTopN (freqMap : List (Str × Nat)) (n : Nat) : List Str :=
  ((sortDescBy (fun e => (e.2 : ℚ)) freqMap).take n).map Prod.fst

/-! ## `_buildStyleProfile` -/

/-- The `allColors` accumulation of `_buildStyleProfile`. -/
def allColorsOf (board : PinterestBoard) : List Str :=
  board.pins.foldl (fun acc pin => acc ++ pin.colors) []

/-- The `allStyles` accumulation of `_buildStyleProfile`. -/
def allStylesOf (board : PinterestBoard) : List Str :=
  board.pins.foldl (fun acc pin => acc ++ pin.style) []

/-- The `categories` accumulation of `_buildStyleProfile`. -/
def categoriesOf (board : PinterestBoard) : List Str :=
  board.pins.foldl (fun acc pin => acc ++ [categoryStr pin.category]) []

/-- The `brands` accumulation: `if (pin.brand) brands.push(pin.brand)` —
an empty string is falsy, so only nonempty brands are pushed. -/
def brandsOf (board : PinterestBoard) : List Str :=
  board.pins.foldl
    (fun acc pin =>
      match pin.brand with
      | some b => if b ≠ [] then acc ++ [b] else acc
      | none => acc) []

/-- The `prices` accumulation: `if (pin.price) prices.push(pin.price)` —
`0` is falsy, so only nonzero prices are pushed. -/
def pricesOf (board : PinterestBoard) : List ℚ :=
  board.pins.foldl
    (fun acc pin =>
      match pin.price with
      | some p => if p ≠ 0 then acc ++ [p] else acc
      | none => acc) []

/-- Embeds `Math.min(...prices)` on a nonempty list. -/
def listMin (p : ℚ) (ps : List ℚ) : ℚ := ps.foldl min p

/-- Embeds `Math.max(...prices)` on a nonempty list. -/
def listMax (p : ℚ) (ps : List ℚ) : ℚ := ps.foldl max p

/-- Embeds `_buildStyleProfile`. -/
def buildStyleProfile (board : PinterestBoard) : StyleProfile :=
  let dominantColors := getTopN (getFrequencyMap (allColorsOf board)) 5
  let styleKeywords := getTopN (getFrequencyMap (allStylesOf board)) 8
  let preferredCategories := getTopN (getFrequencyMap (categoriesOf board)) 3
  let favoredBrands := getTopN (getFrequencyMap (brandsOf board)) 5
  let priceRange : Option (ℚ × ℚ) :=
    match pricesOf board with
    | [] => none
    | p :: ps => some (listMin p ps, listMax p ps)
  { dominantColors, preferredCategories, styleKeywords, priceRange, favoredBrands }

/-! ## Scoring (`_calculateRecommendationScore` and helpers) -/

/-- Embeds `_calculateColorMatch`. -/
def calculateColorMatch (itemColors profileColors : List Str) : ℚ :=
  if itemColors = [] ∨ profileColors = [] then 0.5
  else
    ((itemColors.countP (fun c => profileColors.contains c) : ℚ)) /
      (max itemColors.length 1 : ℚ)

/-- Embeds `_calculateStyleMatch`. -/
def calculateStyleMatch (itemStyles profileStyles : List Str) : ℚ :=
  if itemStyles = [] ∨ profileStyles = [] then 0.5
  else
    ((itemStyles.countP (fun s => profileStyles.contains s) : ℚ)) /
      (max itemStyles.length 1 : ℚ)

/-- The price contribution of `_calculateRecommendationScore`: the
`if (item.price && profile.priceRange) { ... } else { score += 0.025 }` block.
`item.price` is truthy only when present and nonzero. -/
def priceContribution (item : FashionItem) (profile : StyleProfile) : ℚ :=
  match item.price, profile.priceRange with
  | some p, some range =>
    if p ≠ 0 then
      (if range.1 ≤ p ∧ p ≤ range.2 then (1 : ℚ) else 0.5) * 0.05
    else 0.025
  | _, _ => 0.025

/-- Embeds `_calculateRecommendationScore`. -/
def calculateRecommendationScore (item : FashionItem) (profile : StyleProfile) : ℚ :=
  let colorMatch := calculateColorMatch item.colors profile.dominantColors
  let styleMatch := calculateStyleMatch item.style profile.styleKeywords
  let categoryMatch : ℚ :=
    if profile.preferredCategories.contains (categoryStr item.category) then 1 else 0.5
  let brandMatch : ℚ :=
    match item.brand with
    | some b => if b ≠ [] ∧ profile.favoredBrands.contains b then 1 else 0.5
    | none => 0.5
  colorMatch * 0.3 + styleMatch * 0.4 + categoryMatch * 0.15 + brandMatch * 0.1 +
    priceContribution item profile

/-! ## Reasons (`_generateReasons`) -/

/-- The explanatory strings pushed by `_generateReasons`, with their payloads. -/
inductive Reason where
  | matchesColors (colors : List Str)
  | fitsStyles (styles : List Str)
  | oftenSavedCategory (category : Category)
  | favoriteBrand (brand : Str)
  | withinPriceRange
deriving DecidableEq

/-- Embeds `_generateReasons`. -/
def generateReasons (item : FashionItem) (profile : StyleProfile) : List Reason :=
  let matchingColors := item.colors.filter (fun c => profile.dominantColors.contains c)
  let r1 : List Reason :=
    if matchingColors ≠ [] then [.matchesColors matchingColors] else []
  let matchingStyles := item.style.filter (fun s => profile.styleKeywords.contains s)
  let r2 : List Reason :=
    if matchingStyles ≠ [] then [.fitsStyles matchingStyles] else []
  let r3 : List Reason :=
    if profile.preferredCategories.contains (categoryStr item.category) then
      [.oftenSavedCategory item.category] else []
  let r4 : List Reason :=
    match item.brand with
    | some b => if b ≠ [] ∧ profile.favoredBrands.contains b then [.favoriteBrand b] else []
    | none => []
  let r5 : List Reason :=
    match item.price, profile.priceRange with
    | some p, some range =>
      if p ≠ 0 ∧ range.1 ≤ p ∧ p ≤ range.2 then [.withinPriceRange] else []
    | _, _ => []
  r1 ++ r2 ++ r3 ++ r4 ++ r5

/-! ## The engine class -/

/-- Embeds `interface Recommendation`. -/
structure Recommendation where
  item : FashionItem
  score : ℚ
  reasons : List Reason
deriving DecidableEq

/-- The only explicit failure of the engine: the `throw new Error('Style profile
not initialized. Call analyzePinterestBoard first.')`. -/
inductive EngineError where
  | missingStyleProfile
deriving DecidableEq

/-- The private mutable state of `FashionRecommendationEngine`. -/
structure Engine where
  styleProfile : Option StyleProfile
  boardData : Option PinterestBoard
deriving DecidableEq

/-- Embeds `createRecommendationEngine` / `new FashionRecommendationEngine()`. -/
def createRecommendationEngine : Engine :=
  { styleProfile := none, boardData := none }

/-- Embeds `analyzePinterestBoard`: stores the board, builds and stores the profile,
returns the new state and the profile. -/
def analyzePinterestBoard (_e : Engine) (board : PinterestBoard) :
    Engine × StyleProfile :=
  let profile := buildStyleProfile board
  ({ styleProfile := some profile, boardData := some board }, profile)

/-- Embeds `generateRecommendations`: throws when no style profile is initialized,
otherwise scores every catalog item, sorts descending by score (stable), and
keeps the first `limit`. -/
def generateRecommendations (e : Engine) (catalogItems : List FashionItem)
    (limit : Nat) : Except EngineError (List Recommendation) :=
  match e.styleProfile with
  | none => .error .missingStyleProfile
  | some profile =>
    let scoredItems := catalogItems.map (fun item =>
      { item,
        score := calculateRecommendationScore item profile,
        reasons := generateReasons item profile : Recommendation })
    .ok ((sortDescBy Recommendation.score scoredItems).take limit)

/-- Embeds `getStyleProfile`. -/
def getStyleProfile (e : Engine) : Option StyleProfile := e.styleProfile

/-- The fixed list `allCategories` of `findWardrobeGaps`. -/
def allCategories : List Category :=
  [.tops, .bottoms, .dresses, .outerwear, .shoes, .accessories]

/-- Embeds `grouped[cat]?.length || 0`: the number of pins in a category. -/
def categoryCount (board : PinterestBoard) (cat : Category) : Nat :=
  board.pins.countP (fun pin => pin.category = cat)

/-- Embeds `findWardrobeGaps`: returns `[]` with no board, else the categories whose
pin count is strictly below half the mean count over all six categories. -/
def findWardrobeGaps (e : Engine) : List Str :=
  match e.boardData with
  | none => []
  | some board =>
    let avgCount : ℚ :=
      ((allCategories.map (categoryCount board)).sum : ℚ) /
        (allCategories.length : ℚ)
    (allCategories.filter
      (fun cat => (categoryCount board cat : ℚ) < avgCount * 0.5)).map categoryStr

/-! ## Theorems -/

/-- A style profile with all lists empty and no price range, for concrete tests. -/
def emptyProfile : StyleProfile :=
  { dominantColors := [], preferredCategories := [], styleKeywords := [],
    priceRange := none, favoredBrands := [] }

/-- C4: For every board with an empty pin list, `analyzePinterestBoard` returns a
style profile whose `dominantColors`, `styleKeywords`, `preferredCategories` and
`favoredBrands` lists are all empty and whose price range is absent. The function
is total, so it does not fail. -/
theorem empty_board_profile_empty (e : Engine) (id name : Str) :
    (analyzePinterestBoard e { id := id, name := name, pins := [] }).2 =
      { dominantColors := [], preferredCategories := [], styleKeywords := [],
        priceRange := none, favoredBrands := [] } := by
  rfl

/-- C3: Calling `generateRecommendations` while no style profile has been built
(in particular on a fresh engine, before any call to `analyzePinterestBoard`)
signals the invalid-usage error, for every catalog input and limit; whenever a
profile is present the call succeeds, and `analyzePinterestBoard` always
installs a profile (it is total), so this is the only explicit failure of the
core interface. -/
theorem recommendations_before_analysis_error :
    (∀ (catalogItems : List FashionItem) (limit : Nat),
      generateRecommendations createRecommendationEngine catalogItems limit =
        .error .missingStyleProfile)
    ∧ (∀ (e : Engine) (catalogItems : List FashionItem) (limit : Nat),
        e.styleProfile = none →
        generateRecommendations e catalogItems limit = .error .missingStyleProfile)
    ∧ (∀ (e : Engine) (catalogItems : List FashionItem) (limit : Nat)
        (profile : StyleProfile), e.styleProfile = some profile →
        ∃ recs, generateRecommendations e catalogItems limit = .ok recs)
    ∧ (∀ (e : Engine) (board : PinterestBoard),
        (analyzePinterestBoard e board).1.styleProfile =
          some (buildStyleProfile board)) := by
  refine ⟨fun catalogItems limit => rfl, fun e catalogItems limit h => ?_,
    fun e catalogItems limit profile h => ?_, fun e board => rfl⟩
  · simp [generateRecommendations, h]
  · exact ⟨(sortDescBy Recommendation.score (catalogItems.map (fun item =>
      { item, score := calculateRecommendationScore item profile,
        reasons := generateReasons item profile }))).take limit,
      by simp [generateRecommendations, h]⟩

/-- Witness for C3 at concrete inputs. -/
theorem recommendations_before_analysis_error_witness :
    generateRecommendations createRecommendationEngine [] 10 =
        .error .missingStyleProfile
    ∧ ∃ recs,
        generateRecommendations
          { styleProfile := some emptyProfile, boardData := none } [] 10 =
          .ok recs :=
  ⟨recommendations_before_analysis_error.1 [] 10,
    recommendations_before_analysis_error.2.2.1 _ [] 10 _ rfl⟩

/-- C7: For every catalog item whose price is undefined and every profile that
has a price range, the price term of `_calculateRecommendationScore` contributes
exactly the neutral `0.025` to the total score — not `0` and not `0.05`. -/
theorem price_term_neutral_when_price_missing (item : FashionItem)
    (profile : StyleProfile) (lo hi : ℚ)
    (hprice : item.price = none) (_hrange : profile.priceRange = some (lo, hi)) :
    priceContribution item profile = 0.025
    ∧ priceContribution item profile ≠ 0
    ∧ priceContribution item profile ≠ 0.05
    ∧ calculateRecommendationScore item profile =
        calculateColorMatch item.colors profile.dominantColors * 0.3 +
          calculateStyleMatch item.style profile.styleKeywords * 0.4 +
          (if profile.preferredCategories.contains (categoryStr item.category)
            then 1 else 0.5) * 0.15 +
          (match item.brand with
            | some b =>
              if b ≠ [] ∧ profile.favoredBrands.contains b then 1 else (0.5 : ℚ)
            | none => 0.5) * 0.1 + 0.025 := by
  have hpc : priceContribution item profile = 0.025 := by
    simp [priceContribution, hprice]
  refine ⟨hpc, by rw [hpc]; norm_num, by rw [hpc]; norm_num, ?_⟩
  rw [calculateRecommendationScore, hpc]

/-- Witness for C7 at a concrete item and profile. -/
theorem price_term_neutral_when_price_missing_witness :
    priceContribution
        { id := [], title := [], description := [], imageUrl := [],
          category := .tops, colors := [], style := [], price := none,
          brand := none, tags := [] }
        { dominantColors := [], preferredCategories := [], styleKeywords := [],
          priceRange := some (1, 2), favoredBrands := [] } = 0.025 :=
  (price_term_neutral_when_price_missing _ _ 1 2 rfl rfl).1

/-- The color-match component always lies in `[0, 1]`. -/
theorem colorMatch_bounds (a b : List Str) :
    0 ≤ calculateColorMatch a b ∧ calculateColorMatch a b ≤ 1 := by
  unfold calculateColorMatch
  split
  · norm_num
  · have hden : (0 : ℚ) < max (a.length : ℚ) 1 :=
      lt_max_of_lt_right zero_lt_one
    constructor
    · exact div_nonneg (by positivity) hden.le
    · rw [div_le_one hden]
      refine le_max_of_le_left ?_
      exact_mod_cast List.countP_le_length _

/-- The style matcher is the same computation as the color matcher. -/
theorem styleMatch_eq_colorMatch (a b : List Str) :
    calculateStyleMatch a b = calculateColorMatch a b := rfl

/-- The price term is either the neutral `0.025` or `0.05`. -/
theorem priceContribution_bounds (item : FashionItem) (profile : StyleProfile) :
    priceContribution item profile = 0.025 ∨ priceContribution item profile = 0.05 := by
  unfold priceContribution
  rcases item.price with _ | p <;> rcases profile.priceRange with _ | r
  · left; rfl
  · left; rfl
  · left; rfl
  · dsimp only
    split_ifs with h1 h2
    · right; norm_num
    · left; norm_num
    · left; rfl

/-- C2: For every catalog item and every style profile, the score returned by
`_calculateRecommendationScore` lies in the closed interval `[0, 1]`. -/
theorem score_mem_unit_interval (item : FashionItem) (profile : StyleProfile) :
    0 ≤ calculateRecommendationScore item profile
    ∧ calculateRecommendationScore item profile ≤ 1 := by
  have hc := colorMatch_bounds item.colors profile.dominantColors
  have hs := colorMatch_bounds item.style profile.styleKeywords
  have hp := priceContribution_bounds item profile
  simp only [calculateRecommendationScore, styleMatch_eq_colorMatch]
  rcases item.brand with _ | b <;> simp only <;> split_ifs <;>
    rcases hp with hp | hp <;> rw [hp] <;>
    constructor <;> linarith [hc.1, hc.2, hs.1, hs.2]

/-- C9: For every catalog item and every style profile, the score returned by
`_calculateRecommendationScore` is at least `0.15`: the category and brand
components each contribute at least half their weight and the price component
contributes at least `0.025`, so no item can score `0`. -/
theorem score_ge_min_value (item : FashionItem) (profile : StyleProfile) :
    0.15 ≤ calculateRecommendationScore item profile := by
  have hc := colorMatch_bounds item.colors profile.dominantColors
  have hs := colorMatch_bounds item.style profile.styleKeywords
  have hp := priceContribution_bounds item profile
  simp only [calculateRecommendationScore, styleMatch_eq_colorMatch]
  rcases item.brand with _ | b <;> simp only <;> split_ifs <;>
    rcases hp with hp | hp <;> rw [hp] <;>
    linarith [hc.1, hc.2, hs.1, hs.2]

/-- Membership in an insertion step. -/
theorem mem_insertDescBy {α : Type} (key : α → ℚ) (x : α) (l : List α) (z : α) :
    z ∈ insertDescBy key x l ↔ z = x ∨ z ∈ l := by
  induction l with
  | nil => simp [insertDescBy]
  | cons y ys ih =>
    unfold insertDescBy
    split
    · simp only [List.mem_cons, ih]
      tauto
    · simp only [List.mem_cons]

/-- Inserting into a descending list keeps it descending. -/
theorem pairwise_insertDescBy {α : Type} (key : α → ℚ) (x : α) (l : List α)
    (h : l.Pairwise (fun a b => key b ≤ key a)) :
    (insertDescBy key x l).Pairwise (fun a b => key b ≤ key a) := by
  induction l with
  | nil => simp [insertDescBy]
  | cons y ys ih =>
    rcases List.pairwise_cons.1 h with ⟨hy, hys⟩
    unfold insertDescBy
    split
    · rename_i hlt
      refine List.pairwise_cons.2 ⟨?_, ih hys⟩
      intro z hz
      rcases (mem_insertDescBy key x ys z).1 hz with rfl | hz
      · exact le_of_lt hlt
      · exact hy z hz
    · rename_i hnlt
      push_neg at hnlt
      refine List.pairwise_cons.2 ⟨?_, h⟩
      intro z hz
      rcases List.mem_cons.1 hz with rfl | hz
      · exact hnlt
      · exact le_trans (hy z hz) hnlt

/-- The stable descending sort produces a descending list. -/
theorem pairwise_sortDescBy {α : Type} (key : α → ℚ) (l : List α) :
    (sortDescBy key l).Pairwise (fun a b => key b ≤ key a) := by
  induction l with
  | nil => simp [sortDescBy]
  | cons x xs ih => exact pairwise_insertDescBy key x _ ih

/-- C5: For every engine state, catalog and limit, the list returned by
`generateRecommendations` is sorted in monotonically non-increasing order of
score: every element's score is at least the score of the element that
follows it. -/
theorem recommendations_sorted_desc (e : Engine) (catalogItems : List FashionItem)
    (limit : Nat) (recs : List Recommendation)
    (h : generateRecommendations e catalogItems limit = .ok recs) :
    recs.Chain' (fun a b => b.score ≤ a.score) := by
  unfold generateRecommendations at h
  rcases hp : e.styleProfile with _ | profile
  · rw [hp] at h; cases h
  · rw [hp] at h
    dsimp only at h
    injection h with h
    subst h
    exact (List.Pairwise.sublist (List.take_sublist _ _)
      (pairwise_sortDescBy Recommendation.score _)).chain'

/-- A catalog item with the given category and everything optional absent. -/
def blankItem (cat : Category) : FashionItem :=
  { id := [], title := [], description := [], imageUrl := [],
    category := cat, colors := [], style := [], price := none,
    brand := none, tags := [] }

/-- Witness for C5 on a concrete one-item catalog. -/
theorem recommendations_sorted_desc_witness :
    List.Chain' (fun a b : Recommendation => b.score ≤ a.score)
      [{ item := blankItem .tops,
         score := calculateRecommendationScore (blankItem .tops) emptyProfile,
         reasons := generateReasons (blankItem .tops) emptyProfile }] :=
  recommendations_sorted_desc
    { styleProfile := some emptyProfile, boardData := none }
    [blankItem .tops] 10 _ rfl

/-- The six category strings are pairwise distinct. -/
theorem categoryStr_inj (c1 c2 : Category) (h : categoryStr c1 = categoryStr c2) :
    c1 = c2 := by
  revert h
  cases c1 <;> cases c2 <;> decide

/-- Every category value occurs in the fixed `allCategories` list. -/
theorem mem_allCategories (c : Category) : c ∈ allCategories := by
  cases c <;> simp [allCategories]

/-- C8: With an analyzed board in place, `findWardrobeGaps` returns exactly the
categories whose pin count is strictly below half the mean count over the six
fixed categories; consequently a board with all categories equally represented
yields an empty gap list, and a board where one category has zero pins while
every other category has 4 pins flags the zero-count category. -/
theorem wardrobe_gaps_below_half_mean (e : Engine) (board : PinterestBoard)
    (hb : e.boardData = some board) :
    (∀ cat : Category,
      categoryStr cat ∈ findWardrobeGaps e ↔
        (categoryCount board cat : ℚ) <
          ((allCategories.map (categoryCount board)).sum : ℚ) /
            (allCategories.length : ℚ) * 0.5)
    ∧ ((∀ c1 c2 : Category, categoryCount board c1 = categoryCount board c2) →
        findWardrobeGaps e = [])
    ∧ (∀ c0 : Category, categoryCount board c0 = 0 →
        (∀ c : Category, c ≠ c0 → categoryCount board c = 4) →
        categoryStr c0 ∈ findWardrobeGaps e) := by
  refine ⟨fun cat => ?_, fun hEq => ?_, fun c0 h0 h4 => ?_⟩
  · simp only [findWardrobeGaps, hb]
    constructor
    · intro hmem
      rcases List.mem_map.1 hmem with ⟨a, hafil, haeq⟩
      rcases List.mem_filter.1 hafil with ⟨_, hacond⟩
      have ha : a = cat := categoryStr_inj a cat haeq
      subst ha
      simpa using hacond
    · intro hcond
      refine List.mem_map.2 ⟨cat, List.mem_filter.2 ⟨mem_allCategories cat, ?_⟩, rfl⟩
      simpa using hcond
  · simp only [findWardrobeGaps, hb]
    rw [List.map_eq_nil_iff, List.filter_eq_nil_iff]
    intro cat _
    have hc : ∀ c : Category, categoryCount board c = categoryCount board .tops :=
      fun c => hEq c .tops
    simp only [decide_eq_true_eq, not_lt, allCategories, List.map_cons,
      List.map_nil, List.sum_cons, List.sum_nil, List.length_cons,
      List.length_nil, hc]
    have : (0 : ℚ) ≤ (categoryCount board Category.tops : ℚ) := Nat.cast_nonneg _
    push_cast
    linarith
  · simp only [findWardrobeGaps, hb]
    refine List.mem_map.2 ⟨c0, List.mem_filter.2 ⟨mem_allCategories c0, ?_⟩, rfl⟩
    cases c0 <;>
      simp only [allCategories, List.map_cons, List.map_nil, List.sum_cons,
        List.sum_nil, List.length_cons, List.length_nil, h0, h4, ne_eq,
        reduceCtorEq, not_false_eq_true, decide_eq_true_eq] <;>
      norm_num

/-- A board on which every category except `tops` has exactly four pins. -/
def gapBoard : PinterestBoard :=
  { id := [], name := [],
    pins := [blankItem .bottoms, blankItem .bottoms, blankItem .bottoms,
      blankItem .bottoms, blankItem .dresses, blankItem .dresses,
      blankItem .dresses, blankItem .dresses, blankItem .outerwear,
      blankItem .outerwear, blankItem .outerwear, blankItem .outerwear,
      blankItem .shoes, blankItem .shoes, blankItem .shoes, blankItem .shoes,
      blankItem .accessories, blankItem .accessories, blankItem .accessories,
      blankItem .accessories] }

/-- Witness for C8: on `gapBoard` the zero-count `tops` category is flagged. -/
theorem wardrobe_gaps_below_half_mean_witness :
    categoryStr .tops ∈
      findWardrobeGaps { styleProfile := none, boardData := some gapBoard } :=
  (wardrobe_gaps_below_half_mean _ gapBoard rfl).2.2 .tops (by decide)
    (by
      intro c hc
      cases c
      · exact absurd rfl hc
      all_goals decide)

/-! ## The claimed scoring formula, written from the specification text -/

/-- The claimed color/style match: count of the item's tags present in the
profile's top-N list, divided by `max(item tag count, 1)`; `0.5` if either
list is empty. -/
def specTagMatch (itemTags profileTags : List Str) : ℚ :=
  if itemTags = [] ∨ profileTags = [] then 0.5
  else
    ((itemTags.filter (fun t => decide (t ∈ profileTags))).length : ℚ) /
      (max itemTags.length 1 : ℚ)

/-- The scoring formula exactly as the claim states it:
`0.30*colorMatch + 0.40*styleMatch + 0.15*categoryMatch + 0.10*brandMatch`
plus the price term, where the price term is `0.05*priceMatch` whenever both
the item price and the profile range are present, and a flat `0.025` only when
price data is missing on either side. -/
def specScore (item : FashionItem) (profile : StyleProfile) : ℚ :=
  let colorMatch := specTagMatch item.colors profile.dominantColors
  let styleMatch := specTagMatch item.style profile.styleKeywords
  let categoryMatch : ℚ :=
    if categoryStr item.category ∈ profile.preferredCategories then 1 else 0.5
  let brandMatch : ℚ :=
    match item.brand with
    | some b => if b ∈ profile.favoredBrands then 1 else 0.5
    | none => 0.5
  let priceTerm : ℚ :=
    match item.price, profile.priceRange with
    | some p, some range => (if range.1 ≤ p ∧ p ≤ range.2 then 1 else 0.5) * 0.05
    | _, _ => 0.025
  0.30 * colorMatch + 0.40 * styleMatch + 0.15 * categoryMatch +
    0.10 * brandMatch + priceTerm

/-- The amended scoring formula: identical to `specScore` except that the
brand term requires the brand to be present and nonempty (a JavaScript truthy
string), and the price term is the flat neutral `0.025` also when the item's
price is `0` (a JavaScript falsy number). -/
def amendedScore (item : FashionItem) (profile : StyleProfile) : ℚ :=
  let colorMatch := specTagMatch item.colors profile.dominantColors
  let styleMatch := specTagMatch item.style profile.styleKeywords
  let categoryMatch : ℚ :=
    if categoryStr item.category ∈ profile.preferredCategories then 1 else 0.5
  let brandMatch : ℚ :=
    match item.brand with
    | some b => if b ≠ [] ∧ b ∈ profile.favoredBrands then 1 else 0.5
    | none => 0.5
  let priceTerm : ℚ :=
    match item.price, profile.priceRange with
    | some p, some range =>
      if p = 0 then 0.025
      else (if range.1 ≤ p ∧ p ≤ range.2 then 1 else 0.5) * 0.05
    | _, _ => 0.025
  0.30 * colorMatch + 0.40 * styleMatch + 0.15 * categoryMatch +
    0.10 * brandMatch + priceTerm

/-- An item whose price is the falsy number `0`. -/
def zeroPriceItem : FashionItem := { blankItem .tops with price := some (0 : ℚ) }

/-- A profile whose price range `[-1, 1]` contains `0`. -/
def zeroRangeProfile : StyleProfile :=
  { emptyProfile with priceRange := some (-1, 1) }

/-- C1, counterexample: the score computed by `_calculateRecommendationScore`
differs from the claimed formula on an item priced `0` when the profile's
price range contains `0` — JavaScript truthiness makes the code treat the
price `0` as missing, yielding the flat `0.025` where the claim demands
`0.05 * priceMatch = 0.05`. -/
theorem score_spec_formula_counterexample :
    calculateRecommendationScore zeroPriceItem zeroRangeProfile ≠
      specScore zeroPriceItem zeroRangeProfile := by
  have h1 : calculateRecommendationScore zeroPriceItem zeroRangeProfile = 0.5 := by
    simp [calculateRecommendationScore, calculateColorMatch, calculateStyleMatch,
      priceContribution, zeroPriceItem, zeroRangeProfile, blankItem, emptyProfile]
    norm_num
  have h2 : specScore zeroPriceItem zeroRangeProfile = 0.525 := by
    simp [specScore, specTagMatch, zeroPriceItem, zeroRangeProfile, blankItem,
      emptyProfile]
    norm_num
  rw [h1, h2]
  norm_num

/-- The code-side tag matcher agrees with the claim-side one. -/
theorem tagMatch_eq (a b : List Str) :
    calculateColorMatch a b = specTagMatch a b := by
  unfold calculateColorMatch specTagMatch
  split
  · rfl
  · rw [List.countP_eq_length_filter]
    congr 1
    norm_cast
    congr 1
    apply List.filter_congr
    intro t _
    simp [List.contains]

/-- C1, amended: for every catalog item and every style profile, the score of
`_calculateRecommendationScore` equals the claimed weighted-sum formula with
the two truthiness corrections of `amendedScore` (brand must be nonempty,
price `0` counts as missing). -/
theorem score_eq_amended_formula (item : FashionItem) (profile : StyleProfile) :
    calculateRecommendationScore item profile = amendedScore item profile := by
  unfold calculateRecommendationScore amendedScore priceContribution
  rw [styleMatch_eq_colorMatch, tagMatch_eq item.colors, tagMatch_eq item.style]
  have hcat : (profile.preferredCategories.contains (categoryStr item.category)) =
      decide (categoryStr item.category ∈ profile.preferredCategories) := by
    simp [List.contains]
  have hbrand : ∀ b : Str, (profile.favoredBrands.contains b) =
      decide (b ∈ profile.favoredBrands) := by
    intro b; simp [List.contains]
  rcases item.brand with _ | b <;> rcases item.price with _ | p <;>
    rcases profile.priceRange with _ | r <;>
    dsimp only <;>
    simp only [hcat, hbrand, decide_eq_true_eq] <;>
    split_ifs <;>
    first | contradiction | ring

/-! ## Price range characterization -/

/-- The prices the code actually collects from a board, written as a direct
`filterMap`: the price of each pin that is present and nonzero (truthy). -/
def observedPrices (board : PinterestBoard) : List ℚ :=
  board.pins.filterMap (fun pin =>
    match pin.price with
    | some p => if p = 0 then none else some p
    | none => none)

/-- The fold of `_buildStyleProfile` collects exactly the truthy prices. -/
theorem pricesOf_eq_observedPrices (board : PinterestBoard) :
    pricesOf board = observedPrices board := by
  unfold pricesOf observedPrices
  suffices h : ∀ (pins : List FashionItem) (acc : List ℚ),
      pins.foldl (fun acc pin =>
          match pin.price with
          | some p => if p ≠ 0 then acc ++ [p] else acc
          | none => acc) acc
        = acc ++ pins.filterMap (fun pin =>
            match pin.price with
            | some p => if p = 0 then none else some p
            | none => none) by
    simpa using h board.pins []
  intro pins
  induction pins with
  | nil => simp
  | cons pin rest ih =>
    intro acc
    rcases hp : pin.price with _ | p
    · simp only [List.foldl_cons, List.filterMap_cons, hp]
      exact ih acc
    · by_cases h0 : p = 0
      · simp only [List.foldl_cons, List.filterMap_cons, hp]
        rw [if_neg (not_not_intro h0), if_pos h0]
        exact ih acc
      · simp only [List.foldl_cons, List.filterMap_cons, hp]
        rw [if_pos h0, if_neg h0, ih (acc ++ [p]), List.append_assoc,
          List.singleton_append]

/-- The running minimum of `Math.min(...ps)` is one of the listed prices. -/
theorem listMin_mem (p : ℚ) (ps : List ℚ) : listMin p ps ∈ p :: ps := by
  induction ps generalizing p with
  | nil => simp [listMin]
  | cons q qs ih =>
    have hstep : listMin p (q :: qs) = listMin (min p q) qs := rfl
    rw [hstep]
    rcases List.mem_cons.1 (ih (min p q)) with hmem | hmem
    · rw [hmem]
      rcases min_choice p q with hm | hm <;> rw [hm] <;> simp
    · simp [hmem]

/-- The running minimum of `Math.min(...ps)` bounds every listed price. -/
theorem listMin_le (p : ℚ) (ps : List ℚ) : ∀ q ∈ p :: ps, listMin p ps ≤ q := by
  induction ps generalizing p with
  | nil => simp [listMin]
  | cons q qs ih =>
    have hstep : listMin p (q :: qs) = listMin (min p q) qs := rfl
    intro r hr
    rw [hstep]
    have hhead := ih (min p q) (min p q) (List.mem_cons_self _ _)
    rcases List.mem_cons.1 hr with rfl | hr
    · exact le_trans hhead (min_le_left _ _)
    rcases List.mem_cons.1 hr with rfl | hr
    · exact le_trans hhead (min_le_right _ _)
    · exact ih (min p q) r (List.mem_cons_of_mem _ hr)

/-- The running maximum of `Math.max(...ps)` is one of the listed prices. -/
theorem listMax_mem (p : ℚ) (ps : List ℚ) : listMax p ps ∈ p :: ps := by
  induction ps generalizing p with
  | nil => simp [listMax]
  | cons q qs ih =>
    have hstep : listMax p (q :: qs) = listMax (max p q) qs := rfl
    rw [hstep]
    rcases List.mem_cons.1 (ih (max p q)) with hmem | hmem
    · rw [hmem]
      rcases max_choice p q with hm | hm <;> rw [hm] <;> simp
    · simp [hmem]

/-- The running maximum of `Math.max(...ps)` dominates every listed price. -/
theorem le_listMax (p : ℚ) (ps : List ℚ) : ∀ q ∈ p :: ps, q ≤ listMax p ps := by
  induction ps generalizing p with
  | nil => simp [listMax]
  | cons q qs ih =>
    have hstep : listMax p (q :: qs) = listMax (max p q) qs := rfl
    intro r hr
    rw [hstep]
    have hhead := ih (max p q) (max p q) (List.mem_cons_self _ _)
    rcases List.mem_cons.1 hr with rfl | hr
    · exact le_trans (le_max_left _ _) hhead
    rcases List.mem_cons.1 hr with rfl | hr
    · exact le_trans (le_max_right _ _) hhead
    · exact ih (max p q) r (List.mem_cons_of_mem _ hr)

/-- A board holding a single pin priced with the falsy number `0`. -/
def zeroPriceBoard : PinterestBoard :=
  { id := [], name := [], pins := [zeroPriceItem] }

/-- C6, counterexample: a pin priced `0` carries a price, yet the profile's
price range is absent — refuting "the price range is absent exactly when no
pin has a price". -/
theorem priceRange_presence_counterexample :
    (buildStyleProfile zeroPriceBoard).priceRange = none
    ∧ ∃ pin ∈ zeroPriceBoard.pins, pin.price ≠ none := by
  constructor
  · simp [buildStyleProfile, pricesOf, zeroPriceBoard, zeroPriceItem, blankItem]
  · refine ⟨zeroPriceItem, by simp [zeroPriceBoard], ?_⟩
    simp [zeroPriceItem, blankItem]

/-- C6, amended: the style profile's price range is the minimum and maximum of
the truthy (present and nonzero) prices observed on the board's pins, and it is
absent exactly when every pin's price is missing or `0`. -/
theorem priceRange_min_max_of_truthy_prices (board : PinterestBoard) :
    ((buildStyleProfile board).priceRange = none ↔
      ∀ pin ∈ board.pins, pin.price = none ∨ pin.price = some 0)
    ∧ (∀ lo hi, (buildStyleProfile board).priceRange = some (lo, hi) →
        lo ∈ observedPrices board ∧ hi ∈ observedPrices board ∧
          ∀ q ∈ observedPrices board, lo ≤ q ∧ q ≤ hi) := by
  have hpe := pricesOf_eq_observedPrices board
  have hnil : observedPrices board = [] ↔
      ∀ pin ∈ board.pins, pin.price = none ∨ pin.price = some 0 := by
    unfold observedPrices
    rw [List.filterMap_eq_nil_iff]
    refine forall_congr' fun pin => forall_congr' fun _ => ?_
    rcases hp : pin.price with _ | p
    · simp
    · by_cases h0 : p = 0 <;> simp [h0]
  constructor
  · rcases hobs : pricesOf board with _ | ⟨p, ps⟩
    · simp only [buildStyleProfile, hobs]
      rw [← hnil, ← hpe, hobs]
      simp
    · simp only [buildStyleProfile, hobs]
      rw [← hnil, ← hpe, hobs]
      simp
  · intro lo hi h
    rcases hobs : pricesOf board with _ | ⟨p, ps⟩
    · simp only [buildStyleProfile, hobs] at h
      cases h
    · simp only [buildStyleProfile, hobs] at h
      injection h with h
      rw [Prod.mk.injEq] at h
      rw [← hpe, hobs]
      refine ⟨h.1 ▸ listMin_mem p ps, h.2 ▸ listMax_mem p ps, fun q hq => ?_⟩
      exact ⟨h.1 ▸ listMin_le p ps q hq, h.2 ▸ le_listMax p ps q hq⟩

/-- A board with two pins priced `7` and `5`. -/
def twoPriceBoard : PinterestBoard :=
  { id := [], name := [],
    pins := [{ blankItem .tops with price := some 7 },
      { blankItem .shoes with price := some 5 }] }

/-- Witness for C6 on the concrete two-price board: the range `[5, 7]` is the
min and max of the observed prices. -/
theorem priceRange_min_max_of_truthy_prices_witness :
    (5 : ℚ) ∈ observedPrices twoPriceBoard
    ∧ (7 : ℚ) ∈ observedPrices twoPriceBoard
    ∧ ∀ q ∈ observedPrices twoPriceBoard, (5 : ℚ) ≤ q ∧ q ≤ 7 :=
  (priceRange_min_max_of_truthy_prices twoPriceBoard).2 5 7 (by
    simp [buildStyleProfile, pricesOf, twoPriceBoard, blankItem, listMin,
      listMax]
    norm_num [min_def, max_def])

/-! ## Normalization invariants of the style profile -/

/-- Normalization without the `.trim()` step: lowercase, strip punctuation,
collapse whitespace runs. -/
def weakNormalize (s : Str) : Str := collapseWs (stripStr (lowerStr s))

/-- Inserting keeps the sorted list a permutation. -/
theorem insertDescBy_perm {α : Type} (key : α → ℚ) (x : α) (l : List α) :
    (insertDescBy key x l).Perm (x :: l) := by
  induction l with
  | nil => exact List.Perm.refl _
  | cons y ys ih =>
    unfold insertDescBy
    split
    · exact (ih.cons y).trans (List.Perm.swap x y ys)
    · exact List.Perm.refl _

/-- The stable descending sort is a permutation of its input. -/
theorem sortDescBy_perm {α : Type} (key : α → ℚ) (l : List α) :
    (sortDescBy key l).Perm l := by
  induction l with
  | nil => exact List.Perm.refl _
  | cons x xs ih => exact (insertDescBy_perm key x _).trans (ih.cons x)

/-- Every string of a top-N selection is a key of the frequency map. -/
theorem mem_getTopN (m : List (Str × Nat)) (n : Nat) (s : Str)
    (h : s ∈ getTopN m n) : ∃ v, (s, v) ∈ m := by
  unfold getTopN at h
  rcases List.mem_map.1 h with ⟨e, he, rfl⟩
  have h1 : e ∈ sortDescBy (fun e => ((e.2 : ℚ))) m := List.mem_of_mem_take he
  have h2 : e ∈ m := (sortDescBy_perm _ m).mem_iff.1 h1
  exact ⟨e.2, h2⟩

/-- The keys of a bump step are the new key plus the old keys. -/
theorem bumpKey_keys (k : Str) (m : List (Str × Nat)) :
    (bumpKey k m).map Prod.fst ⊆ k :: m.map Prod.fst := by
  induction m with
  | nil => simp [bumpKey]
  | cons y ys ih =>
    rcases y with ⟨k', v⟩
    unfold bumpKey
    split
    · rename_i hk
      subst hk
      intro a ha
      simpa using ha
    · intro a ha
      rw [List.map_cons] at ha
      rcases List.mem_cons.1 ha with rfl | ha2
      · simp
      · rcases List.mem_cons.1 (ih ha2) with rfl | ha3
        · simp
        · simp [ha3]

/-- Every key of the frequency map is the normalization of one of the items. -/
theorem getFrequencyMap_keys (items : List Str) (s : Str)
    (h : ∃ v, (s, v) ∈ getFrequencyMap items) :
    ∃ i ∈ items, s = normalizeText i := by
  unfold getFrequencyMap at h
  suffices hgen : ∀ (its : List Str) (m : List (Str × Nat)),
      (its.foldl (fun m i => bumpKey (normalizeText i) m) m).map Prod.fst ⊆
        m.map Prod.fst ++ its.map normalizeText by
    rcases h with ⟨v, hv⟩
    have hs : s ∈ (items.foldl (fun m i => bumpKey (normalizeText i) m) []).map
        Prod.fst := List.mem_map.2 ⟨(s, v), hv, rfl⟩
    have := hgen items [] hs
    simp only [List.map_nil, List.nil_append] at this
    rcases List.mem_map.1 this with ⟨i, hi, hni⟩
    exact ⟨i, hi, hni.symm⟩
  intro its
  induction its with
  | nil => intro m; simp
  | cons i rest ih =>
    intro m a ha
    have h1 := ih (bumpKey (normalizeText i) m) ha
    rcases List.mem_append.1 h1 with h2 | h2
    · rcases List.mem_cons.1 (bumpKey_keys (normalizeText i) m h2) with rfl | h3
      · simp
      · simp only [List.map_cons, List.mem_append, List.mem_cons]
        tauto
    · simp only [List.map_cons, List.mem_append, List.mem_cons]
      tauto

/-- Characters produced by the whitespace collapse: a replacement space or a
non-whitespace character of the input. -/
theorem mem_collapseWsAux (l : List Nat) :
    ∀ (b : Bool) (c : Nat), c ∈ collapseWsAux b l →
      c = 32 ∨ (c ∈ l ∧ isWsChar c = false) := by
  induction l with
  | nil => intro b c h; simp [collapseWsAux] at h
  | cons d rest ih =>
    intro b c h
    rw [collapseWsAux] at h
    split at h
    · split at h
      · rcases ih true c h with h32 | ⟨hm, hw⟩
        · exact Or.inl h32
        · exact Or.inr ⟨List.mem_cons_of_mem d hm, hw⟩
      · rcases List.mem_cons.1 h with rfl | h2
        · exact Or.inl rfl
        · rcases ih true c h2 with h32 | ⟨hm, hw⟩
          · exact Or.inl h32
          · exact Or.inr ⟨List.mem_cons_of_mem d hm, hw⟩
    · rename_i hws
      rcases List.mem_cons.1 h with rfl | h2
      · exact Or.inr ⟨List.mem_cons_self _ _, by simpa using hws⟩
      · rcases ih false c h2 with h32 | ⟨hm, hw⟩
        · exact Or.inl h32
        · exact Or.inr ⟨List.mem_cons_of_mem d hm, hw⟩

/-- Lowercasing fixes every kept character and the space. -/
theorem toLowerChar_eq_self (c : Nat) (h : keepChar c = true ∨ c = 32) :
    toLowerChar c = c := by
  unfold toLowerChar
  rw [if_neg]
  simp only [keepChar, isWsChar, Bool.or_eq_true, Bool.and_eq_true,
    decide_eq_true_eq] at h
  omega

/-- Collapsing twice is the same as collapsing once. -/
theorem collapseWsAux_idem (z : List Nat) :
    ∀ (b b' : Bool), (b' = true → b = true) →
      collapseWsAux b' (collapseWsAux b z) = collapseWsAux b z := by
  induction z with
  | nil => intro b b' _; rfl
  | cons c rest ih =>
    intro b b' hb
    rw [collapseWsAux]
    split
    · rename_i hws
      split
      · exact ih true b' (fun _ => rfl)
      · rename_i hbf
        have hb' : b' = false := by
          cases b' with
          | false => rfl
          | true => exact absurd (hb rfl) hbf
        subst hb'
        rw [collapseWsAux]
        rw [if_pos (show isWsChar 32 = true from rfl)]
        rw [if_neg (show ¬(false = true) from Bool.false_ne_true)]
        congr 1
        exact ih true true (fun _ => rfl)
    · rename_i hws
      rw [collapseWsAux]
      rw [if_neg hws]
      congr 1
      exact ih false false (fun h => h)

/-- The output of `normalizeText` is untouched by a second pass of lowercasing,
punctuation stripping and whitespace collapsing. -/
theorem weakNormalize_normalizeText (s : Str) :
    weakNormalize (normalizeText s) = normalizeText s := by
  unfold normalizeText weakNormalize collapseWs
  set z := stripStr (trimStr (lowerStr s)) with hz
  have hzkeep : ∀ c ∈ z, keepChar c = true := fun c hc => (List.mem_filter.1 hc).2
  have hykeep : ∀ c ∈ collapseWsAux false z, keepChar c = true ∨ c = 32 := by
    intro c hc
    rcases mem_collapseWsAux z false c hc with h32 | ⟨hm, _⟩
    · exact Or.inr h32
    · exact Or.inl (hzkeep c hm)
  have hlower : lowerStr (collapseWsAux false z) = collapseWsAux false z := by
    unfold lowerStr
    rw [List.map_congr_left (fun a ha => toLowerChar_eq_self a (hykeep a ha))]
    exact List.map_id' _
  have hstrip : stripStr (collapseWsAux false z) = collapseWsAux false z := by
    unfold stripStr
    rw [List.filter_eq_self]
    intro a ha
    rcases hykeep a ha with hk | h32
    · exact hk
    · subst h32; rfl
  rw [hlower, hstrip]
  exact collapseWsAux_idem z false false (fun h => h)

/-- Every string of a top-N selection over a frequency map is the
normalization of one of the underlying tags. -/
theorem topN_freq_normalized (X : List Str) (n : Nat) (s : Str)
    (h : s ∈ getTopN (getFrequencyMap X) n) : ∃ i ∈ X, s = normalizeText i :=
  getFrequencyMap_keys X s (mem_getTopN _ n s h)

/-- A pin whose single color tag is `"red !"`. -/
def redPin : FashionItem :=
  { blankItem .tops with colors := [[114, 101, 100, 32, 33]] }

/-- A board holding only `redPin`. -/
def redBoard : PinterestBoard := { id := [], name := [], pins := [redPin] }

/-- C10, counterexample: the profile built from `redBoard` contains the
dominant color `"red "` (trailing space), and `normalizeText "red " = "red"`,
so a profile string is not a fixed point of `normalizeText` — trimming happens
before punctuation stripping, so stripping can re-expose edge whitespace. -/
theorem profile_strings_normalized_counterexample :
    [114, 101, 100, 32] ∈ (buildStyleProfile redBoard).dominantColors
    ∧ normalizeText [114, 101, 100, 32] ≠ [114, 101, 100, 32] := by
  decide

/-- C10, amended: every string in the four top-N lists of the style profile
returned by `analyzePinterestBoard` is lowercased, punctuation-stripped and
whitespace-collapsed — a fixed point of `weakNormalize` (normalization without
the trim step) — though not necessarily trimmed. -/
theorem profile_strings_lower_strip_collapse_fixed (board : PinterestBoard)
    (s : Str)
    (h : s ∈ (buildStyleProfile board).dominantColors
      ∨ s ∈ (buildStyleProfile board).styleKeywords
      ∨ s ∈ (buildStyleProfile board).preferredCategories
      ∨ s ∈ (buildStyleProfile board).favoredBrands) :
    weakNormalize s = s := by
  simp only [buildStyleProfile] at h
  rcases h with h | h | h | h <;>
    rcases topN_freq_normalized _ _ s h with ⟨i, _, rfl⟩ <;>
    exact weakNormalize_normalizeText i

/-- Witness for C10 (amended) at the concrete `redBoard` profile string. -/
theorem profile_strings_lower_strip_collapse_fixed_witness :
    weakNormalize [114, 101, 100, 32] = [114, 101, 100, 32] :=
  profile_strings_lower_strip_collapse_fixed redBoard [114, 101, 100, 32]
    (Or.inl (by decide))
